import Mathlib

/-!
# Verification of `ndx_monitor.py`

Shallow embedding of the market-index monitor script `src/ndx_monitor.py`.

Modelling conventions:
* pandas timestamps are reduced to the UTC calendar date they denote, an `Int`
  (epoch day); `strftime` of a date is modelled by the injective rendering
  `fmtDate` (the script only ever formats the current UTC date once per run).
* Python floats are modelled as exact rationals `ℚ`.
* A pandas `DataFrame` row (a Python dict in the script) is an association
  list from column name to cell value; the CSV file is modelled as the list of
  its rows, with `none` standing for "the file does not exist".
  `pd.read_csv` / `DataFrame.to_csv` round-trip as the identity.
* Network and filesystem effects are made explicit: fetch results are an
  oracle `String → List Bar`, transport failures are an oracle `Transport`,
  and observable actions are recorded in an event trace.
* A string assembled with `"\n".join` is modelled as its list of lines.
-/

set_option autoImplicit false

namespace NdxMonitor

/-- One cell of a stored row: the script's dicts hold strings and floats. -/
inductive Value where
  | s (v : String)
  | q (v : ℚ)
deriving DecidableEq, Repr

/-- A persisted row, as the dict literal built in `main`:
an association list from column name to cell. -/
abbrev Row := List (String × Value)

/-- The column names of a row, in order. -/
def rowKeys (r : Row) : List String := r.map Prod.fst

/-- One price bar of the fetched history.  `date` is the bar's timestamp
(`latest.name`) converted to a UTC calendar date. -/
structure Bar where
  date : Int
  Open : ℚ
  Close : ℚ
  High : ℚ
  Low : ℚ
  Volume : ℚ
deriving DecidableEq, Repr

/-- `INDEXES`: the monitored tickers and their display names. -/
def INDEXES : List (String × String) :=
  [("^NDX", "纳斯达克100"), ("^GSPC", "标普500"), ("^DJI", "道琼斯工业指数")]

/-- The configuration record returned by `get_config`. -/
structure Config where
  ALERT_THRESHOLD : ℚ
  SMTP_SERVER : Option String
  SMTP_PORT : Int
  EMAIL_FROM : Option String
  EMAIL_TO : Option String
  SMTP_USERNAME : Option String
  SMTP_PASSWORD : Option String
  TELEGRAM_BOT_TOKEN : Option String
  TELEGRAM_CHAT_ID : Option String
  DISCORD_WEBHOOK_URL : Option String
  WECHAT_WEBHOOK_URL : Option String
  DATA_FILE : String
deriving Repr

/-- `get_config`: reads the environment.  The two numeric variables are passed
already parsed (`float(...)`/`int(...)` on the raw string), the rest verbatim;
an absent variable is `none`.  `float(os.getenv('ALERT_THRESHOLD', -0.03))`
defaults to `-0.03` and `int(os.getenv('SMTP_PORT', 587))` to `587`. -/
def get_config (alertThreshold : Option ℚ) (smtpPort : Option Int)
    (env : String → Option String) : Config where
  ALERT_THRESHOLD := alertThreshold.getD (-3/100)
  SMTP_SERVER := env "SMTP_SERVER"
  SMTP_PORT := smtpPort.getD 587
  EMAIL_FROM := env "EMAIL_FROM"
  EMAIL_TO := env "EMAIL_TO"
  SMTP_USERNAME := env "SMTP_USERNAME"
  SMTP_PASSWORD := env "SMTP_PASSWORD"
  TELEGRAM_BOT_TOKEN := env "TELEGRAM_BOT_TOKEN"
  TELEGRAM_CHAT_ID := env "TELEGRAM_CHAT_ID"
  DISCORD_WEBHOOK_URL := env "DISCORD_WEBHOOK_URL"
  WECHAT_WEBHOOK_URL := env "WECHAT_WEBHOOK_URL"
  DATA_FILE := "market_daily.csv"

/-- Python truthiness of an optional string: `None` and `""` are falsy.
Used for `if not config['SMTP_SERVER']` and the webhook checks. -/
def pyFalsy (v : Option String) : Bool := v.getD "" = ""

/-- `get_latest_data`: fetch the 5-day history of `ticker` (the oracle's
answer is `hist`); return `None` when the history is empty or when the date of
the last bar differs from the current UTC date, else the last bar with the
history. -/
def get_latest_data (todayUTC : Int) (hist : List Bar) : Option (Bar × List Bar) :=
  match hist.getLast? with
  | none => none
  | some latest =>
      if latest.date = todayUTC then some (latest, hist) else none

/-- The dedup key of a stored row: its `Date` and `Ticker` cells
(`drop_duplicates(subset=['Date', 'Ticker'])`). -/
def rowKey (r : Row) : Option Value × Option Value :=
  (r.lookup "Date", r.lookup "Ticker")

/-- Keep-first deduplication by `rowKey`, accumulating the keys already seen:
the kernel of pandas `drop_duplicates(subset=['Date', 'Ticker'])`. -/
def dropDupAux (seen : List (Option Value × Option Value)) : List Row → List Row
  | [] => []
  | r :: rs =>
      if rowKey r ∈ seen then dropDupAux seen rs
      else r :: dropDupAux (rowKey r :: seen) rs

/-- `drop_duplicates(subset=['Date', 'Ticker'])`: keep the first row of each
(Date, Ticker) key. -/
def drop_duplicates (rows : List Row) : List Row := dropDupAux [] rows

/-- `save_data`: when the data file exists, concatenate the existing rows with
the new ones, drop duplicate (Date, Ticker) keys keeping the first occurrence,
and write the result; when it does not, write the new rows as they are. -/
def save_data (store : Option (List Row)) (rows : List Row) : List Row :=
  match store with
  | some existing => drop_duplicates (existing ++ rows)
  | none => rows

/-- The first stored row with the given (Date, Ticker) key. -/
def recordAt (rs : List Row) (k : Option Value × Option Value) : Option Row :=
  match rs with
  | [] => none
  | r :: rs => if rowKey r = k then some r else recordAt rs k

/-- A row list is key-distinct when no two rows share a (Date, Ticker) key. -/
def KeyDistinct (rs : List Row) : Prop := (rs.map rowKey).Nodup

instance (rs : List Row) : Decidable (KeyDistinct rs) :=
  inferInstanceAs (Decidable (List.Nodup _))

/-- Key-distinctness of a possibly-absent store. -/
def KeyDistinctStore : Option (List Row) → Prop
  | none => True
  | some rs => KeyDistinct rs

instance : (s : Option (List Row)) → Decidable (KeyDistinctStore s)
  | none => .isTrue trivial
  | some rs => inferInstanceAs (Decidable (KeyDistinct rs))

/-- `strftime('%Y-%m-%d')` on the current UTC date, modelled as an injective
rendering of the epoch day. -/
def fmtDate (d : Int) : String := toString d

/-- Rendering of a float in an f-string (`:.2f` is abstracted to the exact
decimal value; the claims never depend on the rounding). -/
def fmtNum (q : ℚ) : String := toString q

/-- The open-to-close change fraction of a bar, as computed in `main`:
`(latest['Close'] - latest['Open']) / latest['Open']`. -/
def chg (b : Bar) : ℚ := (b.Close - b.Open) / b.Open

/-- The row dict built in `main` for one ticker. -/
def makeRow (todayStr ticker name : String) (latest : Bar) : Row :=
  [("Date", Value.s todayStr), ("Ticker", Value.s ticker), ("Name", Value.s name),
   ("Open", Value.q latest.Open), ("Close", Value.q latest.Close),
   ("Change", Value.q (chg latest))]

/-- The alert line appended when the change breaches the threshold. -/
def alertLine (name : String) (change : ℚ) : String :=
  "⚠️ " ++ name ++ " 跌幅 " ++ fmtNum (change * 100) ++ "%"

/-- The per-ticker line of the daily summary. -/
def summaryLine (r : Row) : String :=
  let txt : Option Value → String
    | some (Value.s v) => v
    | some (Value.q v) => fmtNum v
    | none => ""
  txt (r.lookup "Name") ++ " (" ++ txt (r.lookup "Ticker") ++ "): 开盘 " ++
    txt (r.lookup "Open") ++ ", 收盘 " ++ txt (r.lookup "Close") ++ ", 涨跌幅 " ++
    (match r.lookup "Change" with
     | some (Value.q v) => fmtNum (v * 100)
     | _ => "") ++ "%"

/-- A notification channel. -/
inductive Channel where
  | email
  | telegram
  | discord
  | wechat
deriving DecidableEq, Repr

/-- Observable actions of one run, in execution order. -/
inductive Event where
  | fetch (ticker : String)
  | skip (ticker : String)
  | chart (ticker : String)
  | alertOn (ticker : String)
  | save
  | notify (ch : Channel)
deriving DecidableEq, Repr

/-- Whether each channel's transport call would raise (network failure). -/
structure Transport where
  emailRaises : Bool
  telegramRaises : Bool
  discordRaises : Bool
  wechatRaises : Bool
deriving DecidableEq, Repr

/-- Outcome of one sender: outbound calls made, whether the `except` branch
printed a failure, and whether an exception escaped the sender. -/
structure ChanResult where
  channel : Channel
  calls : Nat
  errorPrinted : Bool
  raised : Bool
deriving DecidableEq, Repr

/-- `send_email`: skip when `SMTP_SERVER` is falsy; otherwise one SMTP
conversation inside `try`, whose failure is caught and printed. -/
def send_email (cfg : Config) (transportRaises : Bool) : ChanResult :=
  if pyFalsy cfg.SMTP_SERVER then
    ⟨Channel.email, 0, false, false⟩
  else
    ⟨Channel.email, 1, transportRaises, false⟩

/-- `send_telegram`: skip when `TELEGRAM_BOT_TOKEN` is falsy; otherwise one
`requests.post` inside `try`, whose failure is caught and printed. -/
def send_telegram (cfg : Config) (transportRaises : Bool) : ChanResult :=
  if pyFalsy cfg.TELEGRAM_BOT_TOKEN then
    ⟨Channel.telegram, 0, false, false⟩
  else
    ⟨Channel.telegram, 1, transportRaises, false⟩

/-- `send_discord`: post to the webhook inside `try` when
`DISCORD_WEBHOOK_URL` is truthy. -/
def send_discord (cfg : Config) (transportRaises : Bool) : ChanResult :=
  if pyFalsy cfg.DISCORD_WEBHOOK_URL then
    ⟨Channel.discord, 0, false, false⟩
  else
    ⟨Channel.discord, 1, transportRaises, false⟩

/-- `send_wechat`: post to the webhook inside `try` when
`WECHAT_WEBHOOK_URL` is truthy. -/
def send_wechat (cfg : Config) (transportRaises : Bool) : ChanResult :=
  if pyFalsy cfg.WECHAT_WEBHOOK_URL then
    ⟨Channel.wechat, 0, false, false⟩
  else
    ⟨Channel.wechat, 1, transportRaises, false⟩

/-- The sequential notification fan-out at the end of `main`.  An uncaught
exception in a sender would abort the remaining senders, so the list stops
after the first result with `raised = true`. -/
def fanOut (cfg : Config) (o : Transport) : List ChanResult :=
  let e := send_email cfg o.emailRaises
  if e.raised then [e] else
  let t := send_telegram cfg o.telegramRaises
  if t.raised then [e, t] else
  let d := send_discord cfg o.discordRaises
  if d.raised then [e, t, d] else
  [e, t, d, send_wechat cfg o.wechatRaises]

/-- Mutable state of `main`'s ticker loop: `all_rows`, `alerts`, `charts`,
plus the trace of observable actions. -/
structure LoopState where
  all_rows : List Row
  alerts : List String
  charts : List (String × List Bar)
  trace : List Event
deriving Repr

/-- One iteration of the ticker loop in `main`: fetch and validate, then
either skip, or render the chart, compute the change, build and append the
row, and append an alert when the change breaches the threshold. -/
def processTicker (cfg : Config) (f : String → List Bar) (today : Int)
    (todayStr : String) (st : LoopState) (p : String × String) : LoopState :=
  match get_latest_data today (f p.1) with
  | none =>
      { st with trace := st.trace ++ [Event.fetch p.1, Event.skip p.1] }
  | some (latest, hist) =>
      let change := chg latest
      let row := makeRow todayStr p.1 p.2 latest
      { all_rows := st.all_rows ++ [row],
        alerts := st.alerts ++
          (if change ≤ cfg.ALERT_THRESHOLD then [alertLine p.2 change] else []),
        charts := st.charts ++ [(p.1, hist)],
        trace := st.trace ++ [Event.fetch p.1, Event.chart p.1] ++
          (if change ≤ cfg.ALERT_THRESHOLD then [Event.alertOn p.1] else []) }

/-- The ticker loop of `main` over a list of (ticker, name) pairs. -/
def runLoop (cfg : Config) (f : String → List Bar) (today : Int)
    (todayStr : String) : List (String × String) → LoopState → LoopState
  | [], st => st
  | p :: ps, st => runLoop cfg f today todayStr ps (processTicker cfg f today todayStr st p)

/-- Everything one run of `main` produces or leaves behind. -/
structure MainResult where
  rows : List Row
  alerts : List String
  subject : String
  bodyLines : List String
  store : Option (List Row)
  notified : List ChanResult
  trace : List Event
deriving Repr

/-- `main`: run the ticker loop, return early when no row was collected,
otherwise persist via `save_data`, build the report, and fan out the
notifications. -/
def main (cfg : Config) (f : String → List Bar) (today : Int)
    (store : Option (List Row)) (o : Transport) : MainResult :=
  let todayStr := fmtDate today
  let st := runLoop cfg f today todayStr INDEXES ⟨[], [], [], []⟩
  if st.all_rows = [] then
    { rows := st.all_rows, alerts := st.alerts, subject := "", bodyLines := [],
      store := store, notified := [], trace := st.trace }
  else
    let newStore := save_data store st.all_rows
    let summary_lines := st.all_rows.map summaryLine
    let subject :=
      if st.alerts = [] then "📈 市场日报（无异常）" else "📉 市场日报（含警报）"
    let bodyLines :=
      if st.alerts = [] then "📊 今日主要指数表现如下：" :: summary_lines
      else ("🚨 触发警报:" :: st.alerts) ++ ("" :: "📈 今日指数表现:" :: summary_lines)
    let notified := fanOut cfg o
    { rows := st.all_rows, alerts := st.alerts, subject := subject,
      bodyLines := bodyLines, store := some newStore, notified := notified,
      trace := st.trace ++ [Event.save] ++
        notified.map (fun r => Event.notify r.channel) }

/-- Index of the first occurrence of an event in a trace. -/
def firstIdx (tr : List Event) (e : Event) : Option Nat :=
  match tr with
  | [] => none
  | x :: xs => if x = e then some 0 else (firstIdx xs e).map (· + 1)

/-- `occursBefore tr a b`: both events occur in `tr` and the first occurrence
of `a` precedes the first occurrence of `b`. -/
def occursBefore (tr : List Event) (a b : Event) : Bool :=
  match firstIdx tr a, firstIdx tr b with
  | some i, some j => i < j
  | _, _ => false

/-- Store states reachable by repeated runs of the script, starting from an
absent data file. -/
inductive Reachable : Option (List Row) → Prop
  | init : Reachable none
  | step (cfg : Config) (f : String → List Bar) (today : Int)
      (o : Transport) {s : Option (List Row)} :
      Reachable s → Reachable ((main cfg f today s o).store)

/-- The row that one (ticker, name) pair contributes to `all_rows`:
`none` when `get_latest_data` rejects its history. -/
def rowOf (f : String → List Bar) (today : Int) (todayStr : String)
    (p : String × String) : Option Row :=
  (get_latest_data today (f p.1)).map fun x => makeRow todayStr p.1 p.2 x.1

/-- The alert line that one (ticker, name) pair contributes: present exactly
when its data is fresh and its change breaches the threshold. -/
def alertOf (cfg : Config) (f : String → List Bar) (today : Int)
    (p : String × String) : Option String :=
  match get_latest_data today (f p.1) with
  | none => none
  | some (b, _) =>
      if chg b ≤ cfg.ALERT_THRESHOLD then some (alertLine p.2 (chg b)) else none

/-- The chart entry that one (ticker, name) pair contributes. -/
def chartOf (f : String → List Bar) (today : Int)
    (p : String × String) : Option (String × List Bar) :=
  (get_latest_data today (f p.1)).map fun x => (p.1, x.2)

/-- The trace segment of one iteration of the ticker loop. -/
def traceOf (cfg : Config) (f : String → List Bar) (today : Int)
    (p : String × String) : List Event :=
  match get_latest_data today (f p.1) with
  | none => [Event.fetch p.1, Event.skip p.1]
  | some (b, _) =>
      [Event.fetch p.1, Event.chart p.1] ++
        (if chg b ≤ cfg.ALERT_THRESHOLD then [Event.alertOn p.1] else [])

/-! ### Concrete inputs used by the witnesses and counterexamples -/

/-- Configuration from an empty environment: all defaults, no channels. -/
def cfg0 : Config := get_config none none (fun _ => none)

/-- Configuration with every channel configured. -/
def cfg1 : Config :=
  get_config (some (-1/100)) (some 465) (fun _ => some "cfgval")

/-- A fresh bar for epoch day 0 that loses 10% open-to-close. -/
def b0 : Bar := ⟨0, 100, 90, 101, 89, 1000⟩

/-- A fresh bar for epoch day 0 that gains 5% open-to-close. -/
def bUp : Bar := ⟨0, 100, 105, 106, 99, 1000⟩

/-- A fetch oracle: `^NDX` falls, `^GSPC` rises, `^DJI` has no data. -/
def f0 : String → List Bar :=
  fun t => if t = "^NDX" then [b0] else if t = "^GSPC" then [bUp] else []

/-- A transport oracle where no call fails. -/
def o0 : Transport := ⟨false, false, false, false⟩

/-- A fetch oracle that returns an empty history for every ticker. -/
def fNone : String → List Bar := fun _ => []

/-- A transport oracle where every call fails. -/
def o1 : Transport := ⟨true, true, true, true⟩

/-- A concrete stored row for (Date "0", Ticker "^NDX"). -/
def r0 : Row := makeRow "0" "^NDX" "纳斯达克100" b0

/-- A row with the same (Date, Ticker) key as `r0` but different values. -/
def r1 : Row := makeRow "0" "^NDX" "other" bUp

/-- A minimal row carrying only its (Date, Ticker) key. -/
def rDup : Row := [("Date", Value.s "0"), ("Ticker", Value.s "^NDX")]

/-- The rows held by a possibly-absent store (an absent file holds none). -/
def storeRows (s : Option (List Row)) : List Row := s.getD []

/-! ## Laws of keep-first deduplication and `save_data` -/

theorem recordAt_append (xs ys : List Row) (k : Option Value × Option Value) :
    recordAt (xs ++ ys) k = (recordAt xs k).or (recordAt ys k) := by
  induction xs with
  | nil => simp [recordAt]
  | cons x xs ih => by_cases h : rowKey x = k <;> simp [recordAt, h, ih]

theorem recordAt_dropDupAux (seen : List (Option Value × Option Value))
    (rs : List Row) (k : Option Value × Option Value) :
    recordAt (dropDupAux seen rs) k = if k ∈ seen then none else recordAt rs k := by
  induction rs generalizing seen with
  | nil => simp [dropDupAux, recordAt]
  | cons r rs ih =>
      simp only [dropDupAux]
      by_cases hr : rowKey r ∈ seen
      · rw [if_pos hr, ih]
        by_cases hk : k ∈ seen
        · rw [if_pos hk, if_pos hk]
        · have hne : rowKey r ≠ k := fun e => hk (e ▸ hr)
          simp [hk, recordAt, hne]
      · rw [if_neg hr]
        by_cases hrk : rowKey r = k
        · subst hrk
          simp [recordAt, hr]
        · simp only [recordAt, if_neg hrk]
          rw [ih]
          by_cases hk : k ∈ seen
          · simp [hk]
          · have hk' : k ∉ rowKey r :: seen := by
              simp only [List.mem_cons]
              rintro (rfl | h)
              · exact hrk rfl
              · exact hk h
            simp [hk, hk']

theorem mem_keys_dropDupAux (seen : List (Option Value × Option Value))
    (rs : List Row) (k : Option Value × Option Value) :
    k ∈ (dropDupAux seen rs).map rowKey ↔ k ∈ rs.map rowKey ∧ k ∉ seen := by
  induction rs generalizing seen with
  | nil => simp [dropDupAux]
  | cons r rs ih =>
      simp only [dropDupAux, List.map_cons, List.mem_cons]
      by_cases hr : rowKey r ∈ seen
      · rw [if_pos hr, ih]
        constructor
        · rintro ⟨h1, h2⟩
          exact ⟨Or.inr h1, h2⟩
        · rintro ⟨h1 | h1, h2⟩
          · exact absurd (h1 ▸ hr) h2
          · exact ⟨h1, h2⟩
      · rw [if_neg hr]
        simp only [List.map_cons, List.mem_cons, ih, List.mem_cons]
        constructor
        · rintro (rfl | ⟨h1, h2⟩)
          · exact ⟨Or.inl rfl, hr⟩
          · exact ⟨Or.inr h1, fun hk => h2 (Or.inr hk)⟩
        · rintro ⟨h1 | h1, h2⟩
          · exact Or.inl h1
          · by_cases hk : k = rowKey r
            · exact Or.inl hk
            · exact Or.inr ⟨h1, fun hmem => hmem.elim hk h2⟩

theorem nodup_keys_dropDupAux (seen : List (Option Value × Option Value))
    (rs : List Row) : ((dropDupAux seen rs).map rowKey).Nodup := by
  induction rs generalizing seen with
  | nil => simp [dropDupAux]
  | cons r rs ih =>
      simp only [dropDupAux]
      by_cases hr : rowKey r ∈ seen
      · simpa [hr] using ih seen
      · rw [if_neg hr]
        simp only [List.map_cons, List.nodup_cons]
        refine ⟨fun hmem => ?_, ih _⟩
        rw [mem_keys_dropDupAux] at hmem
        exact hmem.2 (List.mem_cons_self _ _)

theorem mem_of_mem_dropDupAux (seen : List (Option Value × Option Value))
    (rs : List Row) (r : Row) (h : r ∈ dropDupAux seen rs) : r ∈ rs := by
  induction rs generalizing seen with
  | nil => simp [dropDupAux] at h
  | cons x xs ih =>
      simp only [dropDupAux] at h
      by_cases hx : rowKey x ∈ seen
      · rw [if_pos hx] at h
        exact List.mem_cons_of_mem _ (ih _ h)
      · rw [if_neg hx] at h
        rcases List.mem_cons.mp h with rfl | h
        · exact List.mem_cons_self _ _
        · exact List.mem_cons_of_mem _ (ih _ h)

theorem dropDupAux_nil_of_seen (seen : List (Option Value × Option Value))
    (ys : List Row) (h : ∀ r ∈ ys, rowKey r ∈ seen) : dropDupAux seen ys = [] := by
  induction ys with
  | nil => rfl
  | cons y ys ih =>
      simp only [dropDupAux, if_pos (h y (List.mem_cons_self y ys))]
      exact ih fun r hr => h r (List.mem_cons_of_mem _ hr)

theorem dropDupAux_append_subsumed (seen : List (Option Value × Option Value))
    (xs ys : List Row)
    (h : ∀ r ∈ ys, rowKey r ∈ seen ∨ rowKey r ∈ xs.map rowKey) :
    dropDupAux seen (xs ++ ys) = dropDupAux seen xs := by
  induction xs generalizing seen with
  | nil =>
      simp only [List.nil_append, dropDupAux]
      exact dropDupAux_nil_of_seen seen ys (by simpa using h)
  | cons x xs ih =>
      simp only [List.cons_append, dropDupAux, List.append_eq]
      by_cases hx : rowKey x ∈ seen
      · rw [if_pos hx, if_pos hx, ih seen]
        intro r hr
        rcases h r hr with h1 | h1
        · exact Or.inl h1
        · simp only [List.map_cons, List.mem_cons] at h1
          rcases h1 with h1 | h1
          · exact Or.inl (h1 ▸ hx)
          · exact Or.inr h1
      · rw [if_neg hx, if_neg hx, ih _]
        intro r hr
        rcases h r hr with h1 | h1
        · exact Or.inl (List.mem_cons_of_mem _ h1)
        · simp only [List.map_cons, List.mem_cons] at h1
          rcases h1 with h1 | h1
          · exact Or.inl (h1 ▸ List.mem_cons_self _ _)
          · exact Or.inr h1

theorem dropDupAux_eq_self (seen : List (Option Value × Option Value))
    (zs : List Row) (hnd : (zs.map rowKey).Nodup)
    (hdis : ∀ k ∈ zs.map rowKey, k ∉ seen) : dropDupAux seen zs = zs := by
  induction zs generalizing seen with
  | nil => rfl
  | cons z zs ih =>
      simp only [List.map_cons, List.nodup_cons] at hnd
      have hz : rowKey z ∉ seen := hdis _ (by simp)
      simp only [dropDupAux, if_neg hz]
      congr 1
      refine ih _ hnd.2 fun k hk => ?_
      simp only [List.mem_cons]
      rintro (rfl | hks)
      · exact hnd.1 hk
      · exact hdis k (by simp [hk]) hks

theorem recordAt_of_mem (rs : List Row) (r : Row) (hnd : KeyDistinct rs)
    (hr : r ∈ rs) : recordAt rs (rowKey r) = some r := by
  induction rs with
  | nil => cases hr
  | cons x xs ih =>
      simp only [KeyDistinct, List.map_cons, List.nodup_cons] at hnd
      rcases List.mem_cons.mp hr with rfl | hr
      · simp [recordAt]
      · have hx : rowKey x ≠ rowKey r := by
          intro e
          exact hnd.1 (e ▸ List.mem_map_of_mem rowKey hr)
        simp only [recordAt, if_neg hx]
        exact ih hnd.2 hr

theorem keyDistinct_save_data_some (S rows : List Row) :
    KeyDistinct (save_data (some S) rows) :=
  nodup_keys_dropDupAux [] (S ++ rows)

theorem recordAt_save_data (S rows : List Row) (k : Option Value × Option Value) :
    recordAt (save_data (some S) rows) k = (recordAt S k).or (recordAt rows k) := by
  show recordAt (dropDupAux [] (S ++ rows)) k = _
  rw [recordAt_dropDupAux]
  simp [recordAt_append]

theorem recordAt_save_data_of_mem (S rows : List Row) (r : Row)
    (hnd : KeyDistinct S) (hr : r ∈ S) :
    recordAt (save_data (some S) rows) (rowKey r) = some r := by
  rw [recordAt_save_data, recordAt_of_mem S r hnd hr]
  rfl

theorem save_data_noop (S rows : List Row) (hnd : KeyDistinct S)
    (hsub : ∀ r ∈ rows, rowKey r ∈ S.map rowKey) :
    save_data (some S) rows = S := by
  show dropDupAux [] (S ++ rows) = S
  rw [dropDupAux_append_subsumed [] S rows (fun r hr => Or.inr (hsub r hr))]
  exact dropDupAux_eq_self [] S hnd (by simp)

theorem save_data_idem (S rows : List Row) :
    save_data (some (save_data (some S) rows)) rows = save_data (some S) rows := by
  refine save_data_noop _ _ (keyDistinct_save_data_some S rows) fun r hr => ?_
  show rowKey r ∈ (dropDupAux [] (S ++ rows)).map rowKey
  rw [mem_keys_dropDupAux]
  exact ⟨List.mem_map_of_mem rowKey (List.mem_append_right S hr), List.not_mem_nil _⟩

theorem save_data_none_idem (rows : List Row) (hnd : KeyDistinct rows) :
    save_data (some (save_data none rows)) rows = save_data none rows :=
  save_data_noop rows rows hnd fun _ hr => List.mem_map_of_mem rowKey hr

theorem mem_save_data (S rows : List Row) (r : Row)
    (h : r ∈ save_data (some S) rows) : r ∈ S ∨ r ∈ rows := by
  have := mem_of_mem_dropDupAux [] (S ++ rows) r h
  exact List.mem_append.mp this

/-! ## Characterization of the ticker loop and of `main` -/

theorem runLoop_spec (cfg : Config) (f : String → List Bar) (today : Int)
    (todayStr : String) (l : List (String × String)) (st : LoopState) :
    runLoop cfg f today todayStr l st =
      ⟨st.all_rows ++ l.filterMap (rowOf f today todayStr),
       st.alerts ++ l.filterMap (alertOf cfg f today),
       st.charts ++ l.filterMap (chartOf f today),
       st.trace ++ l.flatMap (traceOf cfg f today)⟩ := by
  induction l generalizing st with
  | nil => cases st; simp [runLoop]
  | cons p ps ih =>
      cases st
      simp only [runLoop]
      rw [ih]
      cases hglf : get_latest_data today (f p.1) with
      | none =>
          simp [processTicker, rowOf, alertOf, chartOf, traceOf, hglf,
            List.filterMap_cons]
      | some x =>
          cases x with
          | mk latest hist =>
              by_cases hc : chg latest ≤ cfg.ALERT_THRESHOLD <;>
                simp [processTicker, rowOf, alertOf, chartOf, traceOf, hglf, hc,
                  List.filterMap_cons]

theorem main_rows (cfg : Config) (f : String → List Bar) (today : Int)
    (store : Option (List Row)) (o : Transport) :
    (main cfg f today store o).rows =
      INDEXES.filterMap (rowOf f today (fmtDate today)) := by
  simp only [main, runLoop_spec, List.nil_append]
  split <;> rfl

theorem main_alerts (cfg : Config) (f : String → List Bar) (today : Int)
    (store : Option (List Row)) (o : Transport) :
    (main cfg f today store o).alerts =
      INDEXES.filterMap (alertOf cfg f today) := by
  simp only [main, runLoop_spec, List.nil_append]
  split <;> rfl

theorem main_store (cfg : Config) (f : String → List Bar) (today : Int)
    (store : Option (List Row)) (o : Transport) :
    (main cfg f today store o).store =
      if INDEXES.filterMap (rowOf f today (fmtDate today)) = [] then store
      else some (save_data store (INDEXES.filterMap (rowOf f today (fmtDate today)))) := by
  simp only [main, runLoop_spec, List.nil_append]
  split <;> simp_all

theorem main_notified (cfg : Config) (f : String → List Bar) (today : Int)
    (store : Option (List Row)) (o : Transport) :
    (main cfg f today store o).notified =
      if INDEXES.filterMap (rowOf f today (fmtDate today)) = [] then []
      else fanOut cfg o := by
  simp only [main, runLoop_spec, List.nil_append]
  split <;> simp_all

theorem main_trace (cfg : Config) (f : String → List Bar) (today : Int)
    (store : Option (List Row)) (o : Transport) :
    (main cfg f today store o).trace =
      INDEXES.flatMap (traceOf cfg f today) ++
        (if INDEXES.filterMap (rowOf f today (fmtDate today)) = [] then []
         else Event.save :: (fanOut cfg o).map fun r => Event.notify r.channel) := by
  simp only [main, runLoop_spec, List.nil_append]
  split <;> simp_all

theorem main_subject_bodyLines (cfg : Config) (f : String → List Bar) (today : Int)
    (store : Option (List Row)) (o : Transport)
    (h : INDEXES.filterMap (rowOf f today (fmtDate today)) ≠ [])
    (ha : INDEXES.filterMap (alertOf cfg f today) ≠ []) :
    (main cfg f today store o).subject = "📉 市场日报（含警报）" ∧
    (main cfg f today store o).bodyLines =
      ("🚨 触发警报:" :: INDEXES.filterMap (alertOf cfg f today)) ++
        ("" :: "📈 今日指数表现:" ::
          (INDEXES.filterMap (rowOf f today (fmtDate today))).map summaryLine) := by
  simp only [main, runLoop_spec, List.nil_append]
  split
  · exact absurd (by assumption) h
  · simp [ha]

/-! ## The notification senders and the fan-out -/

theorem send_email_raised (cfg : Config) (raises : Bool) :
    (send_email cfg raises).raised = false := by
  by_cases h : pyFalsy cfg.SMTP_SERVER <;> simp [send_email, h]

theorem send_telegram_raised (cfg : Config) (raises : Bool) :
    (send_telegram cfg raises).raised = false := by
  by_cases h : pyFalsy cfg.TELEGRAM_BOT_TOKEN <;> simp [send_telegram, h]

theorem send_discord_raised (cfg : Config) (raises : Bool) :
    (send_discord cfg raises).raised = false := by
  by_cases h : pyFalsy cfg.DISCORD_WEBHOOK_URL <;> simp [send_discord, h]

theorem send_wechat_raised (cfg : Config) (raises : Bool) :
    (send_wechat cfg raises).raised = false := by
  by_cases h : pyFalsy cfg.WECHAT_WEBHOOK_URL <;> simp [send_wechat, h]

theorem fanOut_eq (cfg : Config) (o : Transport) :
    fanOut cfg o =
      [send_email cfg o.emailRaises, send_telegram cfg o.telegramRaises,
       send_discord cfg o.discordRaises, send_wechat cfg o.wechatRaises] := by
  simp [fanOut, send_email_raised, send_telegram_raised, send_discord_raised]

theorem fanOut_channels (cfg : Config) (o : Transport) :
    (fanOut cfg o).map ChanResult.channel =
      [Channel.email, Channel.telegram, Channel.discord, Channel.wechat] := by
  rw [fanOut_eq]
  by_cases h1 : pyFalsy cfg.SMTP_SERVER <;>
  by_cases h2 : pyFalsy cfg.TELEGRAM_BOT_TOKEN <;>
  by_cases h3 : pyFalsy cfg.DISCORD_WEBHOOK_URL <;>
  by_cases h4 : pyFalsy cfg.WECHAT_WEBHOOK_URL <;>
    simp [send_email, send_telegram, send_discord, send_wechat, h1, h2, h3, h4]

theorem send_email_calls (cfg : Config) (raises : Bool) :
    (send_email cfg raises).calls = if pyFalsy cfg.SMTP_SERVER then 0 else 1 := by
  by_cases h : pyFalsy cfg.SMTP_SERVER <;> simp [send_email, h]

theorem send_telegram_calls (cfg : Config) (raises : Bool) :
    (send_telegram cfg raises).calls = if pyFalsy cfg.TELEGRAM_BOT_TOKEN then 0 else 1 := by
  by_cases h : pyFalsy cfg.TELEGRAM_BOT_TOKEN <;> simp [send_telegram, h]

theorem send_discord_calls (cfg : Config) (raises : Bool) :
    (send_discord cfg raises).calls = if pyFalsy cfg.DISCORD_WEBHOOK_URL then 0 else 1 := by
  by_cases h : pyFalsy cfg.DISCORD_WEBHOOK_URL <;> simp [send_discord, h]

theorem send_wechat_calls (cfg : Config) (raises : Bool) :
    (send_wechat cfg raises).calls = if pyFalsy cfg.WECHAT_WEBHOOK_URL then 0 else 1 := by
  by_cases h : pyFalsy cfg.WECHAT_WEBHOOK_URL <;> simp [send_wechat, h]

/-! ## Positions of events in the trace -/

theorem firstIdx_eq_none (tr : List Event) (e : Event) (h : e ∉ tr) :
    firstIdx tr e = none := by
  induction tr with
  | nil => rfl
  | cons x xs ih =>
      have hx : ¬ x = e := by
        intro hxe
        subst hxe
        exact h (List.mem_cons_self _ _)
      simp only [firstIdx, if_neg hx]
      rw [ih fun hm => h (List.mem_cons_of_mem _ hm)]
      rfl

theorem firstIdx_isSome_of_mem (tr : List Event) (e : Event) (h : e ∈ tr) :
    (firstIdx tr e).isSome := by
  induction tr with
  | nil => cases h
  | cons x xs ih =>
      by_cases hx : x = e
      · simp [firstIdx, hx]
      · rcases List.mem_cons.mp h with rfl | h
        · exact absurd rfl hx
        · simp only [firstIdx, if_neg hx]
          rcases Option.isSome_iff_exists.mp (ih h) with ⟨i, hi⟩
          simp [hi]

theorem firstIdx_lt_length (tr : List Event) (e : Event) (i : Nat)
    (h : firstIdx tr e = some i) : i < tr.length := by
  induction tr generalizing i with
  | nil => cases h
  | cons x xs ih =>
      by_cases hx : x = e
      · simp only [firstIdx, if_pos hx] at h
        cases h
        simp
      · simp only [firstIdx, if_neg hx] at h
        rcases Option.map_eq_some'.mp h with ⟨j, hj, rfl⟩
        have := ih j hj
        simp only [List.length_cons]
        omega

theorem firstIdx_append_of_not_mem (A B : List Event) (e : Event) (h : e ∉ A) :
    firstIdx (A ++ B) e = (firstIdx B e).map (· + A.length) := by
  induction A with
  | nil => simp
  | cons x xs ih =>
      have hx : ¬ x = e := by
        intro hxe
        subst hxe
        exact h (List.mem_cons_self _ _)
      simp only [List.cons_append, firstIdx, if_neg hx, List.append_eq]
      rw [ih fun hm => h (List.mem_cons_of_mem _ hm)]
      cases firstIdx B e <;> simp
      omega

theorem firstIdx_append_of_mem (A B : List Event) (e : Event) (h : e ∈ A) :
    firstIdx (A ++ B) e = firstIdx A e := by
  induction A with
  | nil => cases h
  | cons x xs ih =>
      by_cases hx : x = e
      · simp [firstIdx, hx]
      · rcases List.mem_cons.mp h with rfl | h
        · exact absurd rfl hx
        · simp only [List.cons_append, firstIdx, if_neg hx, List.append_eq, ih h]

theorem mem_of_firstIdx_some (tr : List Event) (e : Event) (i : Nat)
    (h : firstIdx tr e = some i) : e ∈ tr := by
  induction tr generalizing i with
  | nil => cases h
  | cons x xs ih =>
      by_cases hx : x = e
      · exact hx ▸ List.mem_cons_self _ _
      · simp only [firstIdx, if_neg hx] at h
        rcases Option.map_eq_some'.mp h with ⟨j, hj, rfl⟩
        exact List.mem_cons_of_mem _ (ih j hj)

theorem occursBefore_mem (tr : List Event) (a b : Event)
    (h : occursBefore tr a b = true) : a ∈ tr ∧ b ∈ tr := by
  unfold occursBefore at h
  cases ha : firstIdx tr a with
  | none => rw [ha] at h; cases h
  | some i =>
      cases hb : firstIdx tr b with
      | none => rw [ha, hb] at h; cases h
      | some j =>
          exact ⟨mem_of_firstIdx_some tr a i ha, mem_of_firstIdx_some tr b j hb⟩

theorem occursBefore_asymm (tr : List Event) (a b : Event)
    (h : occursBefore tr a b = true) : occursBefore tr b a = false := by
  unfold occursBefore at h ⊢
  cases ha : firstIdx tr a <;> cases hb : firstIdx tr b <;> simp_all
  all_goals omega

/-! ## What each loop iteration contributes to the trace -/

theorem save_not_mem_traceOf (cfg : Config) (f : String → List Bar) (today : Int)
    (p : String × String) : Event.save ∉ traceOf cfg f today p := by
  unfold traceOf
  cases get_latest_data today (f p.1) with
  | none => simp
  | some x =>
      cases x with
      | mk b h => by_cases hc : chg b ≤ cfg.ALERT_THRESHOLD <;> simp [hc]

theorem notify_not_mem_traceOf (cfg : Config) (f : String → List Bar) (today : Int)
    (p : String × String) (ch : Channel) : Event.notify ch ∉ traceOf cfg f today p := by
  unfold traceOf
  cases get_latest_data today (f p.1) with
  | none => simp
  | some x =>
      cases x with
      | mk b h => by_cases hc : chg b ≤ cfg.ALERT_THRESHOLD <;> simp [hc]

theorem fetch_mem_traceOf (cfg : Config) (f : String → List Bar) (today : Int)
    (p : String × String) : Event.fetch p.1 ∈ traceOf cfg f today p := by
  unfold traceOf
  cases get_latest_data today (f p.1) with
  | none => simp
  | some x =>
      cases x with
      | mk b h => by_cases hc : chg b ≤ cfg.ALERT_THRESHOLD <;> simp [hc]

theorem chart_mem_traceOf (cfg : Config) (f : String → List Bar) (today : Int)
    (p : String × String) (t : String) :
    Event.chart t ∈ traceOf cfg f today p ↔
      p.1 = t ∧ get_latest_data today (f p.1) ≠ none := by
  unfold traceOf
  cases get_latest_data today (f p.1) with
  | none => simp
  | some x =>
      cases x with
      | mk b h =>
          by_cases hc : chg b ≤ cfg.ALERT_THRESHOLD <;> simp [hc, eq_comm]

theorem alertOn_mem_traceOf (cfg : Config) (f : String → List Bar) (today : Int)
    (p : String × String) (t : String) :
    Event.alertOn t ∈ traceOf cfg f today p ↔
      p.1 = t ∧ ∃ b h', get_latest_data today (f p.1) = some (b, h') ∧
        chg b ≤ cfg.ALERT_THRESHOLD := by
  unfold traceOf
  cases hglf : get_latest_data today (f p.1) with
  | none => simp
  | some x =>
      cases x with
      | mk b h =>
          by_cases hc : chg b ≤ cfg.ALERT_THRESHOLD <;> simp [hc, eq_comm]

theorem save_not_mem_loopTrace (cfg : Config) (f : String → List Bar) (today : Int) :
    Event.save ∉ INDEXES.flatMap (traceOf cfg f today) := by
  intro hmem
  rcases List.mem_flatMap.mp hmem with ⟨p, _, hp⟩
  exact save_not_mem_traceOf cfg f today p hp

theorem notify_not_mem_loopTrace (cfg : Config) (f : String → List Bar) (today : Int)
    (ch : Channel) : Event.notify ch ∉ INDEXES.flatMap (traceOf cfg f today) := by
  intro hmem
  rcases List.mem_flatMap.mp hmem with ⟨p, _, hp⟩
  exact notify_not_mem_traceOf cfg f today p ch hp

/-- The monitored tickers are pairwise distinct, so a (ticker, name) pair of
`INDEXES` is determined by its ticker. -/
theorem INDEXES_fst_inj :
    ∀ p ∈ INDEXES, ∀ q ∈ INDEXES, p.1 = q.1 → p = q := by decide

/-! ## The rows produced by one run -/

theorem rowKey_makeRow (d t n : String) (b : Bar) :
    rowKey (makeRow d t n b) = (some (Value.s d), some (Value.s t)) := rfl

theorem rowKeys_makeRow (d t n : String) (b : Bar) :
    rowKeys (makeRow d t n b) = ["Date", "Ticker", "Name", "Open", "Close", "Change"] := rfl

theorem lookup_Ticker_makeRow (d t n : String) (b : Bar) :
    (makeRow d t n b).lookup "Ticker" = some (Value.s t) := rfl

theorem filterMap_eq_nil_of_none {α β : Type} (g : α → Option β) (l : List α)
    (h : ∀ a ∈ l, g a = none) : l.filterMap g = [] := by
  induction l with
  | nil => rfl
  | cons x xs ih =>
      rw [List.filterMap_cons, h x (List.mem_cons_self _ _)]
      exact ih fun a ha => h a (List.mem_cons_of_mem _ ha)

theorem none_of_filterMap_eq_nil {α β : Type} (g : α → Option β) (l : List α)
    (h : l.filterMap g = []) : ∀ a ∈ l, g a = none := by
  induction l with
  | nil => intro a ha; cases ha
  | cons x xs ih =>
      rw [List.filterMap_cons] at h
      cases hx : g x with
      | none =>
          rw [hx] at h
          intro a ha
          rcases List.mem_cons.mp ha with rfl | ha
          · exact hx
          · exact ih h a ha
      | some b => rw [hx] at h; cases h

theorem mem_mainRows (cfg : Config) (f : String → List Bar) (today : Int)
    (store : Option (List Row)) (o : Transport) (r : Row)
    (h : r ∈ (main cfg f today store o).rows) :
    ∃ p ∈ INDEXES, ∃ b h', get_latest_data today (f p.1) = some (b, h') ∧
      r = makeRow (fmtDate today) p.1 p.2 b := by
  rw [main_rows] at h
  rcases List.mem_filterMap.mp h with ⟨p, hp, hrow⟩
  unfold rowOf at hrow
  rcases Option.map_eq_some'.mp hrow with ⟨x, hx, rfl⟩
  cases x with
  | mk b h' => exact ⟨p, hp, b, h', hx, rfl⟩

theorem keyDistinct_filterMap_rowOf (f : String → List Bar) (today : Int)
    (todayStr : String) (l : List (String × String))
    (hnd : (l.map Prod.fst).Nodup) :
    KeyDistinct (l.filterMap (rowOf f today todayStr)) := by
  induction l with
  | nil => simp [KeyDistinct]
  | cons p ps ih =>
      simp only [List.map_cons, List.nodup_cons] at hnd
      rw [List.filterMap_cons]
      cases hro : rowOf f today todayStr p with
      | none => exact ih hnd.2
      | some r =>
          simp only [KeyDistinct, List.map_cons, List.nodup_cons]
          refine ⟨fun hmem => ?_, ih hnd.2⟩
          rcases List.mem_map.mp hmem with ⟨r', hr', hkey⟩
          rcases List.mem_filterMap.mp hr' with ⟨q, hq, hrq⟩
          unfold rowOf at hro hrq
          rcases Option.map_eq_some'.mp hro with ⟨x, _, rfl⟩
          rcases Option.map_eq_some'.mp hrq with ⟨y, _, rfl⟩
          rw [rowKey_makeRow, rowKey_makeRow, Prod.mk.injEq] at hkey
          have hq1 : q.1 = p.1 := by
            have := hkey.2
            simpa [Value.s.injEq] using this
          exact hnd.1 (hq1 ▸ List.mem_map_of_mem Prod.fst hq)

theorem keyDistinct_mainRows (cfg : Config) (f : String → List Bar) (today : Int)
    (store : Option (List Row)) (o : Transport) :
    KeyDistinct ((main cfg f today store o).rows) := by
  rw [main_rows]
  exact keyDistinct_filterMap_rowOf f today (fmtDate today) INDEXES (by decide)

theorem keyDistinctStore_main (cfg : Config) (f : String → List Bar) (today : Int)
    (store : Option (List Row)) (o : Transport) (h : KeyDistinctStore store) :
    KeyDistinctStore ((main cfg f today store o).store) := by
  rw [main_store]
  split
  · exact h
  · cases store with
    | none =>
        show KeyDistinct (save_data none _)
        exact keyDistinct_filterMap_rowOf f today (fmtDate today) INDEXES (by decide)
    | some S => exact keyDistinct_save_data_some S _

theorem main_preserves_record (cfg : Config) (f : String → List Bar) (today : Int)
    (store : Option (List Row)) (o : Transport) (h : KeyDistinctStore store)
    (r : Row) (hr : r ∈ storeRows store) :
    recordAt (storeRows ((main cfg f today store o).store)) (rowKey r) = some r := by
  cases store with
  | none => cases hr
  | some S =>
      rw [main_store]
      split
      · exact recordAt_of_mem S r h hr
      · exact recordAt_save_data_of_mem S _ r h hr

theorem main_noop_of_keys_present (cfg : Config) (f : String → List Bar)
    (today : Int) (store : Option (List Row)) (o : Transport)
    (h : KeyDistinctStore store)
    (hsub : ∀ r ∈ INDEXES.filterMap (rowOf f today (fmtDate today)),
      rowKey r ∈ (storeRows store).map rowKey) :
    (main cfg f today store o).store = store := by
  rw [main_store]
  split
  · rfl
  · rename_i hne
    cases store with
    | none =>
        rcases List.exists_mem_of_ne_nil _ hne with ⟨r, hrm⟩
        exact absurd (hsub r hrm) (by simp [storeRows])
    | some S =>
        rw [save_data_noop S _ h fun r hr => hsub r hr]

/-- The notification events of a run, in source order. -/
theorem fanOut_notify_events (cfg : Config) (o : Transport) :
    (fanOut cfg o).map (fun r => Event.notify r.channel) =
      [Event.notify Channel.email, Event.notify Channel.telegram,
       Event.notify Channel.discord, Event.notify Channel.wechat] := by
  have h : (fun r => Event.notify r.channel) = Event.notify ∘ ChanResult.channel := rfl
  rw [h, ← List.map_map, fanOut_channels]
  rfl

/-- In every run that collects at least one row, `save_data` happens strictly
before each notification. -/
theorem main_save_before_notify (cfg : Config) (f : String → List Bar)
    (today : Int) (store : Option (List Row)) (o : Transport) (ch : Channel)
    (hne : (main cfg f today store o).rows ≠ []) :
    occursBefore (main cfg f today store o).trace Event.save (Event.notify ch) = true := by
  rw [main_rows] at hne
  rw [main_trace, if_neg hne, fanOut_notify_events]
  unfold occursBefore
  rw [firstIdx_append_of_not_mem _ _ _ (save_not_mem_loopTrace cfg f today),
    firstIdx_append_of_not_mem _ _ _ (notify_not_mem_loopTrace cfg f today ch)]
  cases ch <;> simp [firstIdx]

/-- In every run that collects at least one row, each ticker's fetch happens
strictly before `save_data`. -/
theorem main_fetch_before_save (cfg : Config) (f : String → List Bar)
    (today : Int) (store : Option (List Row)) (o : Transport)
    (p : String × String) (hp : p ∈ INDEXES)
    (hne : (main cfg f today store o).rows ≠ []) :
    occursBefore (main cfg f today store o).trace (Event.fetch p.1) Event.save = true := by
  rw [main_rows] at hne
  rw [main_trace, if_neg hne]
  unfold occursBefore
  have hfetch : Event.fetch p.1 ∈ INDEXES.flatMap (traceOf cfg f today) :=
    List.mem_flatMap.mpr ⟨p, hp, fetch_mem_traceOf cfg f today p⟩
  rw [firstIdx_append_of_mem _ _ _ hfetch,
    firstIdx_append_of_not_mem _ _ _ (save_not_mem_loopTrace cfg f today)]
  rcases Option.isSome_iff_exists.mp
    (firstIdx_isSome_of_mem _ _ hfetch) with ⟨i, hi⟩
  have hlt := firstIdx_lt_length _ _ i hi
  rw [hi]
  simp only [firstIdx, if_pos rfl, Option.map_some']
  simpa using hlt

/-- In the concrete run from `cfg0`, `f0` on day 0, the `^NDX` row is
collected. -/
theorem r0_mem_rows0 : r0 ∈ (main cfg0 f0 0 none o0).rows := by
  rw [main_rows]
  exact List.mem_filterMap.mpr ⟨("^NDX", "纳斯达克100"), by decide, rfl⟩

/-- In the concrete run from `cfg0`, `f0` on day 0, the `^NDX` row is
persisted. -/
theorem r0_mem_store0 : r0 ∈ storeRows ((main cfg0 f0 0 none o0).store) := by
  rw [main_store, if_neg (by decide)]
  show r0 ∈ INDEXES.filterMap (rowOf f0 0 (fmtDate 0))
  exact List.mem_filterMap.mpr ⟨("^NDX", "纳斯达克100"), by decide, rfl⟩

/-- The concrete oracle `f0` yields a fresh losing bar for `^NDX`. -/
theorem glf0_ndx : get_latest_data 0 (f0 "^NDX") = some (b0, [b0]) := rfl

/-- The concrete oracle `f0` yields no data for `^DJI`. -/
theorem glf0_dji : get_latest_data 0 (f0 "^DJI") = none := rfl

/-- The concrete `^NDX` bar breaches the default alert threshold:
(90 − 100)/100 = −10% ≤ −3%. -/
theorem chg_b0_breaches : chg b0 ≤ cfg0.ALERT_THRESHOLD := by
  norm_num [chg, b0, cfg0, get_config]

/-- In the concrete run, `^NDX` contributes its alert line. -/
theorem alertLine0_mem :
    alertLine "纳斯达克100" (chg b0) ∈ (main cfg0 f0 0 none o0).alerts := by
  rw [main_alerts]
  refine List.mem_filterMap.mpr ⟨("^NDX", "纳斯达克100"), by decide, ?_⟩
  simp [alertOf, glf0_ndx, chg_b0_breaches]

/-! ## The claims -/

/-- C1: every store state reachable by runs of the script holds at most one
record per (Date, Ticker) key; a later run never changes the record stored at
a key that is already present, and a run whose rows all carry keys already
present leaves the store untouched. -/
theorem C1_store_invariant (s : Option (List Row)) (hs : Reachable s) :
    KeyDistinctStore s ∧
    (∀ (cfg : Config) (f : String → List Bar) (today : Int) (o : Transport)
        (r : Row), r ∈ storeRows s →
      recordAt (storeRows ((main cfg f today s o).store)) (rowKey r) = some r) ∧
    (∀ (cfg : Config) (f : String → List Bar) (today : Int) (o : Transport),
      (∀ r ∈ INDEXES.filterMap (rowOf f today (fmtDate today)),
        rowKey r ∈ (storeRows s).map rowKey) →
      (main cfg f today s o).store = s) := by
  have hkd : KeyDistinctStore s := by
    induction hs with
    | init => trivial
    | step cfg f today o _ ih => exact keyDistinctStore_main cfg f today _ o ih
  exact ⟨hkd,
    fun cfg f today o r hr => main_preserves_record cfg f today s o hkd r hr,
    fun cfg f today o hsub => main_noop_of_keys_present cfg f today s o hkd hsub⟩

/-- Witness for C1 at a concrete reachable store: the store left by a first
run is key-distinct, and a second identical run on the same day keeps the
stored `^NDX` record and leaves the store untouched. -/
theorem C1_store_invariant_witness :
    KeyDistinctStore ((main cfg0 f0 0 none o0).store) ∧
    recordAt
      (storeRows ((main cfg0 f0 0 ((main cfg0 f0 0 none o0).store) o0).store))
      (rowKey r0) = some r0 ∧
    (main cfg0 f0 0 ((main cfg0 f0 0 none o0).store) o0).store =
      (main cfg0 f0 0 none o0).store := by
  have h := C1_store_invariant _ (Reachable.step cfg0 f0 0 o0 Reachable.init)
  exact ⟨h.1, h.2.1 cfg0 f0 0 o0 r0 r0_mem_store0, h.2.2 cfg0 f0 0 o0 (by decide)⟩

/-- C10: `drop_duplicates` keeps the first occurrence and the existing rows
precede the new ones in the concatenation, so for a key-distinct store the
record already present at a key survives any later `save_data`, whatever
values the new row carries. -/
theorem C10_existing_record_wins (S rows : List Row) (r : Row)
    (hnd : KeyDistinct S) (hr : r ∈ S) :
    recordAt (save_data (some S) rows) (rowKey r) = some r :=
  recordAt_save_data_of_mem S rows r hnd hr

/-- Witness for C10: a new row with the same (Date, Ticker) key but different
Name, Open, Close and Change does not displace the stored record. -/
theorem C10_existing_record_wins_witness :
    KeyDistinct [r0] ∧ r1 ≠ r0 ∧ rowKey r1 = rowKey r0 ∧
    recordAt (save_data (some [r0]) [r1]) (rowKey r0) = some r0 :=
  ⟨by decide, by decide, by decide,
    C10_existing_record_wins [r0] [r1] r0 (by decide) (List.mem_cons_self r0 [])⟩

/-- C7 as stated is false: from an absent data file, `save_data` writes the
rows without deduplicating them, so saving a duplicate-keyed row list twice
differs from saving it once. -/
theorem C7_counterexample :
    ¬ (save_data (some (save_data none [rDup, rDup])) [rDup, rDup] =
        save_data none [rDup, rDup]) := by decide

/-- C7 amended: the append is idempotent whenever the data file already
exists, and from an absent file it is idempotent for duplicate-key-free row
lists (the only lists `main` produces). -/
theorem C7_idempotent_amended (S rows : List Row) :
    save_data (some (save_data (some S) rows)) rows = save_data (some S) rows ∧
    (KeyDistinct rows →
      save_data (some (save_data none rows)) rows = save_data none rows) :=
  ⟨save_data_idem S rows, fun h => save_data_none_idem rows h⟩

/-- Witness for C7 amended, at a store holding `r0` and a row list with a
duplicate key, and at an absent store with a key-distinct row list. -/
theorem C7_idempotent_amended_witness :
    save_data (some (save_data (some [r0]) [rDup, rDup])) [rDup, rDup] =
      save_data (some [r0]) [rDup, rDup] ∧
    (KeyDistinct [r1] ∧
      save_data (some (save_data none [r1])) [r1] = save_data none [r1]) :=
  ⟨(C7_idempotent_amended [r0] [rDup, rDup]).1,
    by decide, (C7_idempotent_amended [] [r1]).2 (by decide)⟩

/-- C2 as stated is false: in a concrete run both persisted records carry
exactly the six columns Date, Ticker, Name, Open, Close, Change — no high,
low or volume column in any capitalization. -/
theorem C2_counterexample :
    ((main cfg0 f0 0 none o0).rows.map rowKeys) =
      [["Date", "Ticker", "Name", "Open", "Close", "Change"],
       ["Date", "Ticker", "Name", "Open", "Close", "Change"]] ∧
    "High" ∉ ((main cfg0 f0 0 none o0).rows.map rowKeys).flatten ∧
    "Low" ∉ ((main cfg0 f0 0 none o0).rows.map rowKeys).flatten ∧
    "Volume" ∉ ((main cfg0 f0 0 none o0).rows.map rowKeys).flatten ∧
    "high" ∉ ((main cfg0 f0 0 none o0).rows.map rowKeys).flatten ∧
    "low" ∉ ((main cfg0 f0 0 none o0).rows.map rowKeys).flatten ∧
    "volume" ∉ ((main cfg0 f0 0 none o0).rows.map rowKeys).flatten := by decide

/-- C2 amended: every record persisted to the history store has exactly the
fields Date, Ticker, Name, Open, Close and Change (the change fraction);
high, low and volume are not stored.  Rows already in the store keep their
shape across runs. -/
theorem C2_record_fields_amended (cfg : Config) (f : String → List Bar)
    (today : Int) (store : Option (List Row)) (o : Transport) :
    (∀ r ∈ (main cfg f today store o).rows,
      rowKeys r = ["Date", "Ticker", "Name", "Open", "Close", "Change"]) ∧
    (∀ r ∈ storeRows ((main cfg f today store o).store),
      r ∈ storeRows store ∨
        rowKeys r = ["Date", "Ticker", "Name", "Open", "Close", "Change"]) := by
  have hrows : ∀ r ∈ (main cfg f today store o).rows,
      rowKeys r = ["Date", "Ticker", "Name", "Open", "Close", "Change"] := by
    intro r hr
    rcases mem_mainRows cfg f today store o r hr with ⟨p, _, b, h', _, rfl⟩
    exact rowKeys_makeRow _ _ _ _
  refine ⟨hrows, fun r hr => ?_⟩
  rw [main_store] at hr
  split at hr
  · exact Or.inl hr
  · cases store with
    | none =>
        right
        have : r ∈ INDEXES.filterMap (rowOf f today (fmtDate today)) := hr
        apply hrows
        rw [main_rows]
        exact this
    | some S =>
        rcases mem_save_data S _ r hr with h | h
        · exact Or.inl h
        · right
          apply hrows
          rw [main_rows]
          exact h

/-- Witness for C2 amended: the shape facts at a concrete run. -/
theorem C2_record_fields_amended_witness :
    rowKeys r0 = ["Date", "Ticker", "Name", "Open", "Close", "Change"] ∧
    (r0 ∈ storeRows none ∨
      rowKeys r0 = ["Date", "Ticker", "Name", "Open", "Close", "Change"]) :=
  ⟨(C2_record_fields_amended cfg0 f0 0 none o0).1 r0 r0_mem_rows0,
    (C2_record_fields_amended cfg0 f0 0 none o0).2 r0 r0_mem_store0⟩

/-- C3 as stated is false: in a concrete run with fresh data, both the
dedup-append (`save_data`) and the notification fan-out happen, but the
fan-out does not occur before the append — the append comes first. -/
theorem C3_counterexample :
    occursBefore (main cfg0 f0 0 none o0).trace (Event.notify Channel.email)
      Event.save = false ∧
    Event.save ∈ (main cfg0 f0 0 none o0).trace ∧
    Event.notify Channel.email ∈ (main cfg0 f0 0 none o0).trace := by
  have h := main_save_before_notify cfg0 f0 0 none o0 Channel.email
    (by rw [main_rows]; decide)
  have hm := occursBefore_mem _ _ _ h
  exact ⟨occursBefore_asymm _ _ _ h, hm.1, hm.2⟩

/-- C3 amended: the pipeline runs fetch → validate → compute →
chart/alert → dedup-append → fan-out notify; in particular every fetch
precedes the dedup-append and the dedup-append precedes every notification. -/
theorem C3_pipeline_order_amended (cfg : Config) (f : String → List Bar)
    (today : Int) (store : Option (List Row)) (o : Transport)
    (hne : (main cfg f today store o).rows ≠ []) :
    (∀ ch, occursBefore (main cfg f today store o).trace Event.save
      (Event.notify ch) = true) ∧
    (∀ p ∈ INDEXES, occursBefore (main cfg f today store o).trace
      (Event.fetch p.1) Event.save = true) :=
  ⟨fun ch => main_save_before_notify cfg f today store o ch hne,
    fun p hp => main_fetch_before_save cfg f today store o p hp hne⟩

/-- Witness for C3 amended at the concrete run. -/
theorem C3_pipeline_order_amended_witness :
    occursBefore (main cfg0 f0 0 none o0).trace Event.save
      (Event.notify Channel.email) = true ∧
    occursBefore (main cfg0 f0 0 none o0).trace (Event.fetch "^NDX")
      Event.save = true := by
  have h := C3_pipeline_order_amended cfg0 f0 0 none o0 (by rw [main_rows]; decide)
  exact ⟨h.1 Channel.email, h.2 ("^NDX", "纳斯达克100") (by decide)⟩

/-- C4: a ticker's alert line is emitted exactly when its data is fresh and
its change fraction is ≤ the threshold; the threshold defaults to −0.03 when
the environment variable is unset; and every emitted alert line appears in
the notification body, hence in the subject-and-body message. -/
theorem C4_alert_iff_threshold (cfg : Config) (f : String → List Bar)
    (today : Int) (store : Option (List Row)) (o : Transport) :
    (main cfg f today store o).alerts = INDEXES.filterMap (alertOf cfg f today) ∧
    (∀ (sp : Option Int) (env : String → Option String),
      (get_config none sp env).ALERT_THRESHOLD = -3/100) ∧
    (∀ a ∈ (main cfg f today store o).alerts,
      a ∈ (main cfg f today store o).bodyLines ∧
      a ∈ (main cfg f today store o).subject ::
        (main cfg f today store o).bodyLines) := by
  refine ⟨main_alerts cfg f today store o, fun sp env => rfl, fun a ha => ?_⟩
  have ha' := ha
  rw [main_alerts] at ha'
  have halerts : INDEXES.filterMap (alertOf cfg f today) ≠ [] := by
    intro hnil
    rw [hnil] at ha'
    cases ha'
  have hrows : INDEXES.filterMap (rowOf f today (fmtDate today)) ≠ [] := by
    rcases List.mem_filterMap.mp ha' with ⟨p, hp, hap⟩
    intro hnil
    have hnone := none_of_filterMap_eq_nil _ _ hnil p hp
    unfold rowOf at hnone
    unfold alertOf at hap
    cases hglf : get_latest_data today (f p.1) with
    | none =>
        rw [hglf] at hap
        simp at hap
    | some x =>
        rw [hglf] at hnone
        simp at hnone
  have hsb := main_subject_bodyLines cfg f today store o hrows halerts
  rw [hsb.2]
  constructor
  · exact List.mem_append_left _ (List.mem_cons_of_mem _ ha')
  · exact List.mem_cons_of_mem _
      (List.mem_append_left _ (List.mem_cons_of_mem _ ha'))

/-- Witness for C4 at the concrete run: the `^NDX` alert line is in the body
and in the subject-and-body message, and the unset threshold is −3/100. -/
theorem C4_alert_iff_threshold_witness :
    alertLine "纳斯达克100" (chg b0) ∈ (main cfg0 f0 0 none o0).bodyLines ∧
    alertLine "纳斯达克100" (chg b0) ∈
      (main cfg0 f0 0 none o0).subject :: (main cfg0 f0 0 none o0).bodyLines ∧
    (main cfg0 f0 0 none o0).alerts = INDEXES.filterMap (alertOf cfg0 f0 0) ∧
    (get_config none none (fun _ => none)).ALERT_THRESHOLD = -3/100 := by
  have h := C4_alert_iff_threshold cfg0 f0 0 none o0
  have hm := h.2.2 _ alertLine0_mem
  exact ⟨hm.1, hm.2, h.1, h.2.1 none (fun _ => none)⟩

/-- C5: `get_latest_data` returns `None` exactly when the history is empty or
the latest bar's UTC date is not today; otherwise it returns the latest bar
with the history; and a ticker rejected by it contributes no record, chart or
alert to the run. -/
theorem C5_freshness_validation (cfg : Config) (f : String → List Bar)
    (today : Int) (store : Option (List Row)) (o : Transport)
    (t n : String) (hist : List Bar) :
    (get_latest_data today hist = none ↔
      hist = [] ∨ hist.getLast?.map Bar.date ≠ some today) ∧
    (∀ b h', get_latest_data today hist = some (b, h') →
      hist.getLast? = some b ∧ h' = hist ∧ b.date = today) ∧
    ((t, n) ∈ INDEXES → get_latest_data today (f t) = none →
      (∀ r ∈ (main cfg f today store o).rows,
        r.lookup "Ticker" ≠ some (Value.s t)) ∧
      Event.chart t ∉ (main cfg f today store o).trace ∧
      Event.alertOn t ∉ (main cfg f today store o).trace) := by
  refine ⟨?_, ?_, ?_⟩
  · unfold get_latest_data
    cases hl : hist.getLast? with
    | none => simp
    | some latest =>
        have hne : hist ≠ [] := by
          intro hnil
          rw [hnil] at hl
          cases hl
        by_cases hd : latest.date = today <;> simp [hd, hne]
  · intro b h' hsome
    unfold get_latest_data at hsome
    cases hl : hist.getLast? with
    | none =>
        rw [hl] at hsome
        simp at hsome
    | some latest =>
        rw [hl] at hsome
        by_cases hd : latest.date = today
        · simp only [if_pos hd, Option.some.injEq, Prod.mk.injEq] at hsome
          obtain ⟨h1, h2⟩ := hsome
          exact ⟨by rw [h1], h2.symm, h1 ▸ hd⟩
        · simp only [if_neg hd] at hsome
          cases hsome
  · intro hmem hnone
    refine ⟨?_, ?_, ?_⟩
    · intro r hr
      rcases mem_mainRows cfg f today store o r hr with ⟨p, hp, b, h', hglf, rfl⟩
      rw [lookup_Ticker_makeRow]
      intro heq
      simp only [Option.some.injEq, Value.s.injEq] at heq
      rw [heq] at hglf
      rw [hnone] at hglf
      cases hglf
    · rw [main_trace]
      intro hmemtr
      rcases List.mem_append.mp hmemtr with h1 | h1
      · rcases List.mem_flatMap.mp h1 with ⟨p, hp, hptr⟩
        rw [chart_mem_traceOf] at hptr
        rcases hptr with ⟨hpt, hne⟩
        rw [hpt, hnone] at hne
        exact hne rfl
      · revert h1
        split <;> intro h1 <;> simp at h1
    · rw [main_trace]
      intro hmemtr
      rcases List.mem_append.mp hmemtr with h1 | h1
      · rcases List.mem_flatMap.mp h1 with ⟨p, hp, hptr⟩
        rw [alertOn_mem_traceOf] at hptr
        rcases hptr with ⟨hpt, b', h'', hglf', _⟩
        rw [hpt, hnone] at hglf'
        cases hglf'
      · revert h1
        split <;> intro h1 <;> simp at h1

/-- Witness for C5 at the concrete run: `^DJI` has no data and contributes
nothing. -/
theorem C5_freshness_validation_witness :
    (get_latest_data 0 ([] : List Bar) = none ↔
      ([] : List Bar) = [] ∨
        ([] : List Bar).getLast?.map Bar.date ≠ some 0) ∧
    r0.lookup "Ticker" ≠ some (Value.s "^DJI") ∧
    Event.chart "^DJI" ∉ (main cfg0 f0 0 none o0).trace ∧
    Event.alertOn "^DJI" ∉ (main cfg0 f0 0 none o0).trace := by
  have h := C5_freshness_validation cfg0 f0 0 none o0 "^DJI" "道琼斯工业指数" []
  have h3 := h.2.2 (by decide) glf0_dji
  exact ⟨h.1, h3.1 r0 r0_mem_rows0, h3.2.1, h3.2.2⟩

/-- C6: for a ticker with fresh data, the row built for it — the one that is
appended to `all_rows` and persisted — carries `(close − open) / open` as its
Change cell, and the very same value is what the alert decision compares
against the threshold. -/
theorem C6_change_fraction (cfg : Config) (f : String → List Bar)
    (today : Int) (store : Option (List Row)) (o : Transport)
    (t n : String) (b : Bar) (h' : List Bar) (hmem : (t, n) ∈ INDEXES)
    (hglf : get_latest_data today (f t) = some (b, h')) :
    makeRow (fmtDate today) t n b ∈ (main cfg f today store o).rows ∧
    (makeRow (fmtDate today) t n b).lookup "Change" =
      some (Value.q ((b.Close - b.Open) / b.Open)) ∧
    (Event.alertOn t ∈ (main cfg f today store o).trace ↔
      (b.Close - b.Open) / b.Open ≤ cfg.ALERT_THRESHOLD) := by
  refine ⟨?_, rfl, ?_⟩
  · rw [main_rows]
    refine List.mem_filterMap.mpr ⟨(t, n), hmem, ?_⟩
    simp [rowOf, hglf]
  · rw [main_trace]
    constructor
    · intro hmemtr
      rcases List.mem_append.mp hmemtr with h1 | h1
      · rcases List.mem_flatMap.mp h1 with ⟨p, hp, hptr⟩
        rw [alertOn_mem_traceOf] at hptr
        rcases hptr with ⟨hpt, b', h'', hglf', hc⟩
        have hpeq : p = (t, n) := INDEXES_fst_inj p hp (t, n) hmem hpt
        rw [hpeq] at hglf'
        have hcomb : (some (b, h') : Option (Bar × List Bar)) = some (b', h'') := by
          rw [← hglf]
          exact hglf'
        simp only [Option.some.injEq, Prod.mk.injEq] at hcomb
        exact hcomb.1 ▸ hc
      · exfalso
        revert h1
        split <;> intro h1 <;> simp at h1
    · intro hc
      apply List.mem_append_left
      refine List.mem_flatMap.mpr ⟨(t, n), hmem, ?_⟩
      rw [alertOn_mem_traceOf]
      exact ⟨rfl, b, h', hglf, hc⟩

/-- Witness for C6 at the concrete run: the `^NDX` row. -/
theorem C6_change_fraction_witness :
    makeRow (fmtDate 0) "^NDX" "纳斯达克100" b0 ∈ (main cfg0 f0 0 none o0).rows ∧
    (makeRow (fmtDate 0) "^NDX" "纳斯达克100" b0).lookup "Change" =
      some (Value.q ((b0.Close - b0.Open) / b0.Open)) ∧
    (Event.alertOn "^NDX" ∈ (main cfg0 f0 0 none o0).trace ↔
      (b0.Close - b0.Open) / b0.Open ≤ cfg0.ALERT_THRESHOLD) :=
  C6_change_fraction cfg0 f0 0 none o0 "^NDX" "纳斯达克100" b0 [b0]
    (by decide) glf0_ndx

/-- C9: when no ticker has fresh same-day data, the run collects no row,
leaves the store untouched, performs no dedup-append, and invokes no
notification channel. -/
theorem C9_no_fresh_data_no_effects (cfg : Config) (f : String → List Bar)
    (today : Int) (store : Option (List Row)) (o : Transport)
    (h : ∀ p ∈ INDEXES, get_latest_data today (f p.1) = none) :
    (main cfg f today store o).rows = [] ∧
    (main cfg f today store o).store = store ∧
    (main cfg f today store o).notified = [] ∧
    Event.save ∉ (main cfg f today store o).trace ∧
    ∀ ch, Event.notify ch ∉ (main cfg f today store o).trace := by
  have hrows : INDEXES.filterMap (rowOf f today (fmtDate today)) = [] :=
    filterMap_eq_nil_of_none _ _ fun p hp => by
      unfold rowOf
      rw [h p hp]
      rfl
  refine ⟨?_, ?_, ?_, ?_, ?_⟩
  · rw [main_rows, hrows]
  · rw [main_store, if_pos hrows]
  · rw [main_notified, if_pos hrows]
  · rw [main_trace, if_pos hrows, List.append_nil]
    exact save_not_mem_loopTrace cfg f today
  · intro ch
    rw [main_trace, if_pos hrows, List.append_nil]
    exact notify_not_mem_loopTrace cfg f today ch

/-- Witness for C9 with a fetch oracle returning empty histories. -/
theorem C9_no_fresh_data_no_effects_witness :
    (main cfg0 fNone 0 none o0).rows = [] ∧
    (main cfg0 fNone 0 none o0).store = none ∧
    (main cfg0 fNone 0 none o0).notified = [] ∧
    Event.save ∉ (main cfg0 fNone 0 none o0).trace ∧
    Event.notify Channel.email ∉ (main cfg0 fNone 0 none o0).trace := by
  have h := C9_no_fresh_data_no_effects cfg0 fNone 0 none o0 (by decide)
  exact ⟨h.1, h.2.1, h.2.2.1, h.2.2.2.1, h.2.2.2.2 Channel.email⟩

/-- C8: the fan-out always attempts all four channels in order — no sender
lets an exception escape, a failed transport only prints an error after its
one call, an unconfigured channel is skipped silently, and the number of
outbound calls is the number of configured channels, between 0 and 4. -/
theorem C8_notify_isolation (cfg : Config) (o : Transport) :
    fanOut cfg o =
      [send_email cfg o.emailRaises, send_telegram cfg o.telegramRaises,
       send_discord cfg o.discordRaises, send_wechat cfg o.wechatRaises] ∧
    (∀ r ∈ fanOut cfg o, r.raised = false) ∧
    (∀ r ∈ fanOut cfg o, r.errorPrinted = true → r.calls = 1) ∧
    (∀ r ∈ fanOut cfg o, r.calls = 0 → r.errorPrinted = false) ∧
    ((fanOut cfg o).map ChanResult.calls).sum =
      ((if pyFalsy cfg.SMTP_SERVER then 0 else 1) +
        (if pyFalsy cfg.TELEGRAM_BOT_TOKEN then 0 else 1) +
        (if pyFalsy cfg.DISCORD_WEBHOOK_URL then 0 else 1) +
        (if pyFalsy cfg.WECHAT_WEBHOOK_URL then 0 else 1)) ∧
    ((fanOut cfg o).map ChanResult.calls).sum ≤ 4 := by
  have he := fanOut_eq cfg o
  by_cases h1 : pyFalsy cfg.SMTP_SERVER <;>
  by_cases h2 : pyFalsy cfg.TELEGRAM_BOT_TOKEN <;>
  by_cases h3 : pyFalsy cfg.DISCORD_WEBHOOK_URL <;>
  by_cases h4 : pyFalsy cfg.WECHAT_WEBHOOK_URL <;>
    refine ⟨he, ?_, ?_, ?_, ?_, ?_⟩ <;>
    simp [he, send_email, send_telegram, send_discord, send_wechat,
      h1, h2, h3, h4]

/-- Witness for C8 with every channel configured and every transport
failing: all four senders run, none propagates, four calls are made. -/
theorem C8_notify_isolation_witness :
    fanOut cfg1 o1 =
      [send_email cfg1 o1.emailRaises, send_telegram cfg1 o1.telegramRaises,
       send_discord cfg1 o1.discordRaises, send_wechat cfg1 o1.wechatRaises] ∧
    (send_email cfg1 o1.emailRaises).raised = false ∧
    (send_email cfg1 o1.emailRaises).calls = 1 ∧
    ((fanOut cfg1 o1).map ChanResult.calls).sum = 4 := by
  have h := C8_notify_isolation cfg1 o1
  refine ⟨h.1, ?_, ?_, ?_⟩
  · exact h.2.1 _ (by rw [h.1]; exact List.mem_cons_self _ _)
  · exact h.2.2.1 _ (by rw [h.1]; exact List.mem_cons_self _ _) (by decide)
  · rw [h.2.2.2.2.1]
    decide

end NdxMonitor
